import Mathlib

/-!
Shallow embedding of the meetup scheduling bot (src/Main.py).

The program has two parts:
* a natural-language date parser (`parse_date_time`, `format_datetime`) over
  Russian month names, and
* an event coordinator keeping one Event per chat
  (`event_cmd` / `exclude_cmd` / `add_cmd` / `done_cmd`).

Python `datetime` values are modelled by the `TimePoint` structure
(year, month, day, hour, minute — the program never uses seconds).
Python's `datetime.now()` is passed explicitly as a `now : TimePoint`
parameter.  The comparison `dt < now - timedelta(minutes=10)` is modelled
on the absolute-minute count `toAbs` (minutes since the calendar epoch),
which is order-isomorphic to chronological comparison of valid datetimes.
Strings are Lean `String`s (lists of unicode chars); the regular expression
`(\d{1,2})\s+([а-яё]+)\s+(\d{1,2}):(\d{2})` used with `re.match` (anchored
at the start only) is embedded as the explicit scanner `matchPattern`,
whose greedy/backtracking behaviour on this particular pattern collapses to
maximal-run scanning.  `\d`, `\s` and `str.strip`/`str.lower` are modelled
on the ASCII plus Cyrillic ranges the program's inputs use.
-/

/-! ### Character classes and Python string primitives -/

/-- Model of the regex class `\d` (restricted to ASCII digits `0`-`9`). -/
def isDigitChar (c : Char) : Bool :=
  48 ≤ c.toNat && c.toNat ≤ 57

/-- Model of the regex class `\s` and of the characters `str.strip` removes
(space, tab, newline, carriage return, vertical tab, form feed). -/
def isSpaceChar (c : Char) : Bool :=
  c.toNat = 32 || c.toNat = 9 || c.toNat = 10 || c.toNat = 13 ||
    c.toNat = 11 || c.toNat = 12

/-- Model of the regex class `[а-яё]`: lowercase Cyrillic а..я (U+0430..U+044F)
or ё (U+0451). -/
def isCyrChar (c : Char) : Bool :=
  (0x430 ≤ c.toNat && c.toNat ≤ 0x44F) || c.toNat = 0x451

/-- Model of Python `str.lower` on one character, covering the alphabets the
program touches: ASCII `A`-`Z`, Cyrillic `А`-`Я` (U+0410..U+042F) and `Ё`
(U+0401); every other character is left unchanged. -/
def pyLowerChar (c : Char) : Char :=
  if 65 ≤ c.toNat ∧ c.toNat ≤ 90 then Char.ofNat (c.toNat + 32)
  else if 0x410 ≤ c.toNat ∧ c.toNat ≤ 0x42F then Char.ofNat (c.toNat + 32)
  else if c.toNat = 0x401 then Char.ofNat 0x451
  else c

/-- Model of Python `str.strip`: drop whitespace from both ends. -/
def pyStrip (cs : List Char) : List Char :=
  ((cs.dropWhile isSpaceChar).reverse.dropWhile isSpaceChar).reverse

/-- Normalisation pipeline of `parse_date_time`: `date_str.strip().lower()`. -/
def pyNormalize (cs : List Char) : List Char :=
  (pyStrip cs).map pyLowerChar

/-- Value of a digit character. -/
def digitVal (c : Char) : Nat := c.toNat - 48

/-- Model of Python `int` on a string of decimal digits. -/
def natOfDigits (ds : List Char) : Nat :=
  ds.foldl (fun a c => a * 10 + digitVal c) 0

/-- Model of Python `str.split(",")`: split at every comma, keeping empty
pieces (splitting the empty string yields one empty piece). -/
def splitComma : List Char → List (List Char)
  | [] => [[]]
  | c :: rest =>
    match splitComma rest with
    | [] => [[]]
    | g :: gs => if c = ',' then [] :: g :: gs else (c :: g) :: gs

/-! ### TimePoint: the model of Python `datetime` values -/

/-- A calendar date plus time of day, minute precision — the model of the
`datetime` values the bot stores (it never uses seconds or timezones). -/
structure TimePoint where
  year : Nat
  month : Nat
  day : Nat
  hour : Nat
  minute : Nat
deriving DecidableEq, Repr

/-- Lexicographic packaging of the five fields; Python compares `datetime`
values lexicographically on (year, month, day, hour, minute, ...). -/
def TimePoint.toTuple (p : TimePoint) :
    Lex (Nat × Lex (Nat × Lex (Nat × Lex (Nat × Nat)))) :=
  toLex (p.year, toLex (p.month, toLex (p.day, toLex (p.hour, p.minute))))

instance : LinearOrder TimePoint :=
  LinearOrder.lift' TimePoint.toTuple (by
    intro a b h
    cases a; cases b
    simpa [TimePoint.toTuple, toLex, Prod.ext_iff] using h)

/-! ### Calendar arithmetic (model of the `datetime` constructor and clock) -/

/-- Gregorian leap-year rule, as implemented by Python `datetime`. -/
def isLeap (y : Nat) : Bool :=
  (y % 4 = 0 && y % 100 ≠ 0) || y % 400 = 0

/-- Number of days of month `m` in year `y`. -/
def daysInMonth (y m : Nat) : Nat :=
  if m = 2 then (if isLeap y then 29 else 28)
  else if m = 4 ∨ m = 6 ∨ m = 9 ∨ m = 11 then 30
  else 31

/-- Model of the `datetime(year, month, day, hour, minute)` constructor
succeeding (Python raises `ValueError` outside these bounds; its year range
is 1..9999). -/
def validDate (y m d h mi : Nat) : Bool :=
  1 ≤ y && y ≤ 9999 && 1 ≤ m && m ≤ 12 &&
    1 ≤ d && d ≤ daysInMonth y m && h < 24 && mi < 60

/-- Number of leap years in `[1, y-1]`. -/
def leapsBefore (y : Nat) : Nat :=
  (y - 1) / 4 - (y - 1) / 100 + (y - 1) / 400

/-- Days from the calendar epoch to January 1 of year `y`. -/
def daysBeforeYear (y : Nat) : Nat :=
  365 * (y - 1) + leapsBefore y

/-- Days from January 1 of year `y` to the first day of month `m`
(the months 1..m-1 in full). -/
def daysBeforeMonth : Nat → Nat → Nat
  | _, 0 => 0
  | _, 1 => 0
  | y, m + 1 => daysBeforeMonth y m + daysInMonth y m

/-- Number of days in year `y`. -/
def daysInYear (y : Nat) : Nat :=
  if isLeap y then 366 else 365

/-- Absolute minute count of a TimePoint; chronological comparison of valid
datetimes (what Python's `<` on `datetime` does) coincides with comparison
of these counts, and subtracting `timedelta(minutes=10)` subtracts 10. -/
def toAbs (p : TimePoint) : Nat :=
  ((daysBeforeYear p.year + daysBeforeMonth p.year p.month + (p.day - 1)) * 24
      + p.hour) * 60 + p.minute

/-! ### The month lexicon and the regex scanner -/

/-- The `MONTHS` dictionary of src/Main.py: the twelve Russian month names in
genitive case, in calendar order (Python dicts preserve insertion order, which
`format_datetime` relies on for its reverse lookup). -/
def MONTHS : List (String × Nat) :=
  [("января", 1), ("февраля", 2), ("марта", 3), ("апреля", 4),
   ("мая", 5), ("июня", 6), ("июля", 7), ("августа", 8),
   ("сентября", 9), ("октября", 10), ("ноября", 11), ("декабря", 12)]

/-- Scanner for `re.match(r'(\d{1,2})\s+([а-яё]+)\s+(\d{1,2}):(\d{2})', s)`.
Because each quantified class is disjoint from what must follow it,
the regex engine's greedy matching with backtracking reduces to taking
maximal runs: a run of 1-2 digits (3 or more digits cannot match, since
backtracking still leaves a digit where `\s` is required), whitespace, a
maximal run of Cyrillic letters, whitespace, 1-2 digits, a literal colon and
two digits.  `re.match` anchors at the start only, so trailing characters
after the minute digits are ignored. -/
def matchPattern (cs : List Char) : Option (Nat × String × Nat × Nat) :=
  let p1 := cs.span isDigitChar
  if p1.1.length = 0 ∨ 2 < p1.1.length then none else
  let p2 := p1.2.span isSpaceChar
  if p2.1.length = 0 then none else
  let p3 := p2.2.span isCyrChar
  if p3.1.length = 0 then none else
  let p4 := p3.2.span isSpaceChar
  if p4.1.length = 0 then none else
  let p5 := p4.2.span isDigitChar
  if p5.1.length = 0 ∨ 2 < p5.1.length then none else
  match p5.2 with
  | ':' :: a :: b :: _ =>
    if isDigitChar a && isDigitChar b then
      some (natOfDigits p1.1, String.mk p3.1, natOfDigits p5.1,
        natOfDigits [a, b])
    else none
  | _ => none

/-- Embedding of `parse_date_time` (src/Main.py lines 20-49): strip and
lowercase, scan the pattern, look the month word up in `MONTHS`, build the
current-year datetime (`ValueError` becomes `none`), and if it lies more
than 10 minutes in the past rebuild with year + 1 (a `ValueError` there is
caught by the same handler and becomes `none`). -/
def parse_date_time (now : TimePoint) (s : String) : Option TimePoint :=
  match matchPattern (pyNormalize s.data) with
  | none => none
  | some (day, monthWord, hour, minute) =>
    match MONTHS.lookup monthWord with
    | none => none
    | some month =>
      let year := now.year
      if validDate year month day hour minute then
        let dt : TimePoint := ⟨year, month, day, hour, minute⟩
        if toAbs dt + 10 < toAbs now then
          if validDate (year + 1) month day hour minute then
            some ⟨year + 1, month, day, hour, minute⟩
          else none
        else some dt
      else none

/-- Zero-padding to two digits, the model of Python's `f"{n:02d}"`. -/
def pad2 (n : Nat) : String :=
  if n < 10 then "0" ++ Nat.repr n else Nat.repr n

/-- Embedding of `format_datetime` (src/Main.py lines 51-54): day unpadded,
month name looked up by position in the `MONTHS` key list, hour and minute
zero-padded to two digits. -/
def format_datetime (p : TimePoint) : String :=
  Nat.repr p.day ++ " " ++ (MONTHS.map Prod.fst).getD (p.month - 1) "" ++ " "
    ++ pad2 p.hour ++ ":" ++ pad2 p.minute

/-! ### The event coordinator -/

abbrev ChatId := Nat
abbrev UserId := Nat

/-- One chat's scheduling poll, the value stored in the `events` dictionary:
`{ "name": ..., "options": set of datetime, "exclusions": {user_id: set} }`.
The Python dict `exclusions` is modelled as an association list with one
entry per user. -/
structure Event where
  name : String
  options : Finset TimePoint
  exclusions : List (UserId × Finset TimePoint)
deriving DecidableEq

/-- The global `events` store: chat id to the chat's Event, if any. -/
def CoordState : Type := ChatId → Option Event

/-- The store at module load: `events = {}`. -/
def initState : CoordState := fun _ => none

/-- The four user-facing failure kinds of the coordinator. -/
inductive CoordError where
  | noValidDates
  | noActiveEvent
  | unparsableDate
  | optionNotOffered
deriving DecidableEq, Repr

/-- Piece extraction of `event_cmd` line 67:
`[t.strip() for t in times_str.split(",") if t.strip()]`. -/
def parsePieces (timesStr : String) : List String :=
  ((splitComma timesStr.data).map (fun cs => String.mk (pyStrip cs))).filter
    (fun t => t ≠ "")

/-- One iteration of the loop of `event_cmd` lines 72-77: a parsed point
goes into the set, an unparsed piece is appended to the rejected list. -/
def collectStep (now : TimePoint) (acc : Finset TimePoint × List String)
    (raw : String) : Finset TimePoint × List String :=
  match parse_date_time now raw with
  | some dt => (insert dt acc.1, acc.2)
  | none => (acc.1, acc.2 ++ [raw])

/-- Accumulation loop of `event_cmd` lines 69-77: parsed points go into the
set, unparsed pieces are appended (in order) to the rejected list. -/
def collectOptions (now : TimePoint) (raws : List String) :
    Finset TimePoint × List String :=
  raws.foldl (collectStep now) (∅, [])

/-- Embedding of `event_cmd` (src/Main.py lines 56-100), after the
`"name | times"` split: parse the comma-separated pieces; with no valid
date, report `NoValidDates` and leave the store alone; otherwise overwrite
the chat's Event with the parsed options and empty exclusions, returning
the new Event and the unrecognised pieces. -/
def event_cmd (now : TimePoint) (st : CoordState) (chat : ChatId)
    (name timesStr : String) :
    Except CoordError (Event × List String) × CoordState :=
  let c := collectOptions now (parsePieces timesStr)
  if c.1 = ∅ then (Except.error CoordError.noValidDates, st)
  else
    let ev : Event := ⟨name, c.1, []⟩
    (Except.ok (ev, c.2), fun x => if x = chat then some ev else st x)

/-- Model of `event["exclusions"].setdefault(user_id, set()).add(dt)`:
add `dt` to the user's set, creating the entry if absent. -/
def exclAdd : List (UserId × Finset TimePoint) → UserId → TimePoint →
    List (UserId × Finset TimePoint)
  | [], u, dt => [(u, {dt})]
  | (v, s) :: rest, u, dt =>
    if v = u then (v, insert dt s) :: rest else (v, s) :: exclAdd rest u dt

/-- Embedding of `exclude_cmd` (src/Main.py lines 102-127): no Event for the
chat fails `NoActiveEvent`; an unparsable date fails `UnparsableDate`; a
parsed point outside `options` fails `OptionNotOffered` (the bot suggests
`/add` instead); otherwise the point is recorded in the caller's exclusion
set. -/
def exclude_cmd (now : TimePoint) (st : CoordState) (chat : ChatId)
    (user : UserId) (rawTime : String) :
    Except CoordError TimePoint × CoordState :=
  match st chat with
  | none => (Except.error CoordError.noActiveEvent, st)
  | some ev =>
    match parse_date_time now rawTime with
    | none => (Except.error CoordError.unparsableDate, st)
    | some dt =>
      if dt ∈ ev.options then
        let ev2 : Event := ⟨ev.name, ev.options, exclAdd ev.exclusions user dt⟩
        (Except.ok dt, fun x => if x = chat then some ev2 else st x)
      else (Except.error CoordError.optionNotOffered, st)

/-- Embedding of `add_cmd` (src/Main.py lines 129-145): no Event fails
`NoActiveEvent`, unparsable text fails `UnparsableDate`, otherwise
`event["options"].add(dt)`. -/
def add_cmd (now : TimePoint) (st : CoordState) (chat : ChatId)
    (rawTime : String) : Except CoordError TimePoint × CoordState :=
  match st chat with
  | none => (Except.error CoordError.noActiveEvent, st)
  | some ev =>
    match parse_date_time now rawTime with
    | none => (Except.error CoordError.unparsableDate, st)
    | some dt =>
      let ev2 : Event := ⟨ev.name, insert dt ev.options, ev.exclusions⟩
      (Except.ok dt, fun x => if x = chat then some ev2 else st x)

/-- Embedding of `done_cmd` (src/Main.py lines 147-164): with no Event fail
`NoActiveEvent`; otherwise subtract every participant's exclusion set from
`options`, report the remainder sorted chronologically (an empty remainder
is the "no common time" message, still a success), and delete the chat's
Event unconditionally. -/
def done_cmd (st : CoordState) (chat : ChatId) :
    Except CoordError (List TimePoint) × CoordState :=
  match st chat with
  | none => (Except.error CoordError.noActiveEvent, st)
  | some ev =>
    let available := ev.exclusions.foldl (fun acc p => acc \ p.2) ev.options
    (Except.ok (available.sort (· ≤ ·)),
      fun x => if x = chat then none else st x)

/-- One inbound command, as dispatched to the four handlers; parsing
commands carry the wall-clock time at which they run. -/
inductive Cmd where
  | propose (now : TimePoint) (chat : ChatId) (name timesStr : String)
  | exclude (now : TimePoint) (chat : ChatId) (user : UserId) (raw : String)
  | addOpt (now : TimePoint) (chat : ChatId) (raw : String)
  | finalize (chat : ChatId)

/-- State transition of one command (the store after the handler ran). -/
def stepCmd (st : CoordState) : Cmd → CoordState
  | Cmd.propose now chat name timesStr => (event_cmd now st chat name timesStr).2
  | Cmd.exclude now chat user raw => (exclude_cmd now st chat user raw).2
  | Cmd.addOpt now chat raw => (add_cmd now st chat raw).2
  | Cmd.finalize chat => (done_cmd st chat).2

/-- The store after a sequence of commands, starting from the empty store. -/
def runCmds (cmds : List Cmd) : CoordState :=
  cmds.foldl stepCmd initState

/-! ### Derived notions used by the statements -/

/-- A participant's recorded exclusion set (empty if the user has no entry),
the reading side of the `exclusions` dictionary. -/
def exclGet (l : List (UserId × Finset TimePoint)) (u : UserId) :
    Finset TimePoint :=
  match l.lookup u with
  | some s => s
  | none => ∅

/-- Internal consistency of one Event: every recorded exclusion point is an
offered option, and every participant entry holds a non-empty set. -/
def EventInv (ev : Event) : Prop :=
  ∀ p ∈ ev.exclusions, p.2 ⊆ ev.options ∧ p.2 ≠ ∅

/-- Consistency of the whole store: every existing Event satisfies
`EventInv`. -/
def StateInv (st : CoordState) : Prop :=
  ∀ chat ev, st chat = some ev → EventInv ev

/-! ### Concrete fixtures used by the witness instantiations -/

/-- A fixed clock reading (June 15, 2025, 12:00) used for concrete runs. -/
def now0 : TimePoint := ⟨2025, 6, 15, 12, 0⟩

/-- The point `parse_date_time now0 "31 января 20:00"` produces (January 31
has passed by June, so it rolls to 2026). -/
def pJan : TimePoint := ⟨2026, 1, 31, 20, 0⟩

/-- The point `parse_date_time now0 "1 февраля 18:00"` produces. -/
def pFeb : TimePoint := ⟨2026, 2, 1, 18, 0⟩

/-- A concrete Event offering one option and having no exclusions. -/
def ev0 : Event := ⟨"Sync", {pJan}, []⟩

/-- A concrete store holding `ev0` for chat 0 and nothing else. -/
def st0 : CoordState := fun c => if c = 0 then some ev0 else none

/-! ### Helper lemmas about the coordinator -/

theorem exclude_cmd_ok (now : TimePoint) (st : CoordState) (chat : ChatId)
    (user : UserId) (raw : String) (ev : Event) (dt : TimePoint)
    (hev : st chat = some ev) (hp : parse_date_time now raw = some dt)
    (hmem : dt ∈ ev.options) :
    exclude_cmd now st chat user raw =
      (Except.ok dt, fun x => if x = chat then
        some ⟨ev.name, ev.options, exclAdd ev.exclusions user dt⟩ else st x) := by
  simp [exclude_cmd, hev, hp, hmem]

theorem mem_foldl_sdiff (dt : TimePoint) (l : List (UserId × Finset TimePoint)) :
    ∀ opts : Finset TimePoint,
      dt ∈ l.foldl (fun acc p => acc \ p.2) opts ↔
        dt ∈ opts ∧ ∀ p ∈ l, dt ∉ p.2 := by
  induction l with
  | nil => intro opts; simp
  | cons q rest ih =>
    intro opts
    simp only [List.foldl_cons, ih, Finset.mem_sdiff, List.forall_mem_cons]
    tauto

theorem collect_foldl_mem (now : TimePoint) (raws : List String) :
    ∀ (acc : Finset TimePoint × List String) (dt : TimePoint),
      dt ∈ (raws.foldl (collectStep now) acc).1 ↔
        dt ∈ acc.1 ∨ ∃ raw ∈ raws, parse_date_time now raw = some dt := by
  induction raws with
  | nil => intro acc dt; simp
  | cons r rest ih =>
    intro acc dt
    simp only [List.foldl_cons]
    rw [ih]
    cases hp : parse_date_time now r with
    | none => simp [collectStep, hp]
    | some q =>
      simp only [collectStep, hp, Finset.mem_insert, List.mem_cons]
      constructor
      · rintro (⟨rfl | hacc⟩ | hrest)
        · exact Or.inr ⟨r, Or.inl rfl, hp⟩
        · exact Or.inl hacc
        · obtain ⟨raw, hraw, hq⟩ := hrest
          exact Or.inr ⟨raw, Or.inr hraw, hq⟩
      · rintro (hacc | ⟨raw, rfl | hraw, hq⟩)
        · exact Or.inl (Or.inr hacc)
        · rw [hp] at hq
          exact Or.inl (Or.inl (Option.some_injective _ hq).symm)
        · exact Or.inr ⟨raw, hraw, hq⟩

theorem collect_foldl_rejected (now : TimePoint) (raws : List String) :
    ∀ acc : Finset TimePoint × List String,
      (raws.foldl (collectStep now) acc).2 =
        acc.2 ++ raws.filter (fun r => (parse_date_time now r).isNone) := by
  induction raws with
  | nil => intro acc; simp
  | cons r rest ih =>
    intro acc
    simp only [List.foldl_cons, List.filter_cons]
    cases hp : parse_date_time now r with
    | none => simp [collectStep, hp, ih]
    | some q => simp [collectStep, hp, ih]

theorem exclAdd_mem_preserved (opts : Finset TimePoint) (u : UserId)
    (dt : TimePoint) (hdt : dt ∈ opts) (l : List (UserId × Finset TimePoint))
    (hl : ∀ p ∈ l, p.2 ⊆ opts ∧ p.2 ≠ ∅) :
    ∀ p ∈ exclAdd l u dt, p.2 ⊆ opts ∧ p.2 ≠ ∅ := by
  induction l with
  | nil =>
    intro p hp
    simp only [exclAdd, List.mem_singleton] at hp
    subst hp
    exact ⟨Finset.singleton_subset_iff.mpr hdt, by simp⟩
  | cons q rest ih =>
    obtain ⟨v, s⟩ := q
    intro p hp
    by_cases hv : v = u
    · simp only [exclAdd, if_pos hv] at hp
      rcases List.mem_cons.mp hp with rfl | hrest
      · have hq := hl (v, s) (List.mem_cons_self _ _)
        exact ⟨Finset.insert_subset hdt hq.1, by simp⟩
      · exact hl p (List.mem_cons_of_mem _ hrest)
    · simp only [exclAdd, if_neg hv] at hp
      rcases List.mem_cons.mp hp with rfl | hrest
      · exact hl _ (List.mem_cons_self _ _)
      · exact ih (fun p2 hp2 => hl p2 (List.mem_cons_of_mem _ hp2)) p hrest

theorem exclAdd_idem (u : UserId) (dt : TimePoint) :
    ∀ l, exclAdd (exclAdd l u dt) u dt = exclAdd l u dt := by
  intro l
  induction l with
  | nil => simp [exclAdd]
  | cons q rest ih =>
    obtain ⟨v, s⟩ := q
    by_cases hv : v = u
    · simp [exclAdd, hv, Finset.insert_idem]
    · simp [exclAdd, hv, ih]

theorem exclGet_exclAdd_self (u : UserId) (dt : TimePoint) :
    ∀ l, exclGet (exclAdd l u dt) u = insert dt (exclGet l u) := by
  intro l
  induction l with
  | nil => simp [exclAdd, exclGet, List.lookup]
  | cons q rest ih =>
    obtain ⟨v, s⟩ := q
    by_cases hv : v = u
    · subst hv
      simp [exclAdd, exclGet, List.lookup]
    · simp only [exclAdd, if_neg hv, exclGet, List.lookup]
      have hbeq : (u == v) = false := by
        simp [Nat.beq_eq_true_eq]
        exact fun h => hv h.symm
      rw [hbeq]
      simp only [exclGet] at ih
      exact ih

/-! ### Claim theorems -/

/-- C1: for every chat with an active Event, finalize (`done_cmd`) succeeds
with exactly the options that lie in no participant's exclusion set, sorted
chronologically ascending (an empty list is still a success); it deletes the
chat's Event unconditionally, so a second finalize on the same chat fails
`NoActiveEvent`. -/
theorem done_cmd_resolves (st : CoordState) (chat : ChatId) (ev : Event)
    (h : st chat = some ev) :
    ∃ l : List TimePoint,
      (done_cmd st chat).1 = Except.ok l ∧
      (∀ dt, dt ∈ l ↔ dt ∈ ev.options ∧ ∀ p ∈ ev.exclusions, dt ∉ p.2) ∧
      l.Sorted (· ≤ ·) ∧
      (done_cmd st chat).2 chat = none ∧
      done_cmd (done_cmd st chat).2 chat =
        (Except.error CoordError.noActiveEvent, (done_cmd st chat).2) := by
  refine ⟨(ev.exclusions.foldl (fun acc p => acc \ p.2) ev.options).sort (· ≤ ·),
    ?_, ?_, ?_, ?_, ?_⟩
  · simp [done_cmd, h]
  · intro dt
    rw [Finset.mem_sort]
    exact mem_foldl_sdiff dt ev.exclusions ev.options
  · exact Finset.sort_sorted _ _
  · simp [done_cmd, h]
  · have h2 : (done_cmd st chat).2 chat = none := by simp [done_cmd, h]
    rw [show done_cmd (done_cmd st chat).2 chat =
        (Except.error CoordError.noActiveEvent, (done_cmd st chat).2) from by
      simp only [done_cmd] at h2 ⊢
      rw [h] at h2 ⊢
      simp only at h2 ⊢
      rw [h2]]

/-- C1 witness: the theorem instantiated at the concrete store `st0`, which
holds `ev0` for chat 0. -/
theorem done_cmd_resolves_witness :
    ∃ l : List TimePoint,
      (done_cmd st0 0).1 = Except.ok l ∧
      (∀ dt, dt ∈ l ↔ dt ∈ ev0.options ∧ ∀ p ∈ ev0.exclusions, dt ∉ p.2) ∧
      l.Sorted (· ≤ ·) ∧
      (done_cmd st0 0).2 0 = none ∧
      done_cmd (done_cmd st0 0).2 0 =
        (Except.error CoordError.noActiveEvent, (done_cmd st0 0).2) :=
  done_cmd_resolves st0 0 ev0 rfl

/-- C2: whenever at least one piece of the raw option list parses, propose
(`event_cmd`) overwrites the chat's Event — whatever was there before — with
the given name, the deduplicated set of successfully parsed points, and no
exclusions; the pieces that failed to parse are all returned, in their
original order. -/
theorem event_cmd_overwrites (now : TimePoint) (st : CoordState)
    (chat : ChatId) (name timesStr : String)
    (h : ∃ raw ∈ parsePieces timesStr, (parse_date_time now raw).isSome) :
    ∃ (ev : Event) (rejected : List String),
      (event_cmd now st chat name timesStr).1 = Except.ok (ev, rejected) ∧
      ev.name = name ∧
      (∀ dt, dt ∈ ev.options ↔
        ∃ raw ∈ parsePieces timesStr, parse_date_time now raw = some dt) ∧
      ev.exclusions = [] ∧
      rejected = (parsePieces timesStr).filter
        (fun r => (parse_date_time now r).isNone) ∧
      (event_cmd now st chat name timesStr).2 chat = some ev ∧
      ∀ c2, c2 ≠ chat → (event_cmd now st chat name timesStr).2 c2 = st c2 := by
  obtain ⟨raw, hraw, hsome⟩ := h
  obtain ⟨dt, hdt⟩ := Option.isSome_iff_exists.mp hsome
  have hmem : dt ∈ (collectOptions now (parsePieces timesStr)).1 := by
    rw [collectOptions, collect_foldl_mem]
    exact Or.inr ⟨raw, hraw, hdt⟩
  have hne : ¬(collectOptions now (parsePieces timesStr)).1 = ∅ :=
    fun he => by simp [he] at hmem
  refine ⟨⟨name, (collectOptions now (parsePieces timesStr)).1, []⟩,
    (collectOptions now (parsePieces timesStr)).2, ?_, rfl, ?_, rfl, ?_, ?_, ?_⟩
  · simp [event_cmd, hne]
  · intro dt2
    show dt2 ∈ (collectOptions now (parsePieces timesStr)).1 ↔ _
    rw [collectOptions, collect_foldl_mem]
    simp
  · rw [collectOptions, collect_foldl_rejected]
    simp
  · simp [event_cmd, hne]
  · intro c2 hc2
    simp [event_cmd, hne, hc2]

/-- C2 witness: a concrete mixed proposal, one parsable piece and one
rejected piece, run against the empty store. -/
theorem event_cmd_overwrites_witness :
    ∃ (ev : Event) (rejected : List String),
      (event_cmd now0 initState 0 "Sync" "31 января 20:00, bogus").1 =
        Except.ok (ev, rejected) ∧
      ev.name = "Sync" ∧
      (∀ dt, dt ∈ ev.options ↔
        ∃ raw ∈ parsePieces "31 января 20:00, bogus",
          parse_date_time now0 raw = some dt) ∧
      ev.exclusions = [] ∧
      rejected = (parsePieces "31 января 20:00, bogus").filter
        (fun r => (parse_date_time now0 r).isNone) ∧
      (event_cmd now0 initState 0 "Sync" "31 января 20:00, bogus").2 0 =
        some ev ∧
      ∀ c2, c2 ≠ 0 →
        (event_cmd now0 initState 0 "Sync" "31 января 20:00, bogus").2 c2 =
          initState c2 :=
  event_cmd_overwrites now0 initState 0 "Sync" "31 января 20:00, bogus"
    ⟨"31 января 20:00", by decide, by decide⟩

/-- C9: with an active Event and parsable text, `add_cmd` returns the parsed
point and inserts it into the Event's options, leaving the name, the
exclusions and every other chat's Event untouched. -/
theorem add_cmd_frame (now : TimePoint) (st : CoordState) (chat : ChatId)
    (ev : Event) (rawTime : String) (dt : TimePoint)
    (hev : st chat = some ev) (hp : parse_date_time now rawTime = some dt) :
    (add_cmd now st chat rawTime).1 = Except.ok dt ∧
    (add_cmd now st chat rawTime).2 chat =
      some ⟨ev.name, insert dt ev.options, ev.exclusions⟩ ∧
    (∀ x, x ∈ insert dt ev.options ↔ x = dt ∨ x ∈ ev.options) ∧
    (∀ c2, c2 ≠ chat → (add_cmd now st chat rawTime).2 c2 = st c2) := by
  refine ⟨?_, ?_, ?_, ?_⟩
  · simp [add_cmd, hev, hp]
  · simp [add_cmd, hev, hp]
  · intro x
    exact Finset.mem_insert
  · intro c2 hc2
    simp [add_cmd, hev, hp, hc2]

/-- C9 witness: adding "1 февраля 18:00" to the chat-0 Event of `st0`. -/
theorem add_cmd_frame_witness :
    (add_cmd now0 st0 0 "1 февраля 18:00").1 = Except.ok pFeb ∧
    (add_cmd now0 st0 0 "1 февраля 18:00").2 0 =
      some ⟨ev0.name, insert pFeb ev0.options, ev0.exclusions⟩ ∧
    (∀ x, x ∈ insert pFeb ev0.options ↔ x = pFeb ∨ x ∈ ev0.options) ∧
    (∀ c2, c2 ≠ 0 → (add_cmd now0 st0 0 "1 февраля 18:00").2 c2 = st0 c2) :=
  add_cmd_frame now0 st0 0 ev0 "1 февраля 18:00" pFeb rfl (by decide)

/-- C8: excluding an offered point succeeds, records the point in the
participant's exclusion set (creating the entry if absent), and is
idempotent: a second exclusion of the same point by the same participant —
at any later parse of text denoting the same point — succeeds and leaves the
store exactly as after the first. -/
theorem exclude_cmd_idempotent (now now2 : TimePoint) (st : CoordState)
    (chat : ChatId) (user : UserId) (raw raw2 : String) (ev : Event)
    (dt : TimePoint) (hev : st chat = some ev)
    (hp : parse_date_time now raw = some dt)
    (hp2 : parse_date_time now2 raw2 = some dt) (hmem : dt ∈ ev.options) :
    (exclude_cmd now st chat user raw).1 = Except.ok dt ∧
    (exclude_cmd now st chat user raw).2 chat =
      some ⟨ev.name, ev.options, exclAdd ev.exclusions user dt⟩ ∧
    exclGet (exclAdd ev.exclusions user dt) user =
      insert dt (exclGet ev.exclusions user) ∧
    (exclude_cmd now2 (exclude_cmd now st chat user raw).2 chat user raw2).1 =
      Except.ok dt ∧
    (exclude_cmd now2 (exclude_cmd now st chat user raw).2 chat user raw2).2 =
      (exclude_cmd now st chat user raw).2 := by
  have h1 := exclude_cmd_ok now st chat user raw ev dt hev hp hmem
  have hs1 : (exclude_cmd now st chat user raw).2 =
      (fun x => if x = chat then
        some ⟨ev.name, ev.options, exclAdd ev.exclusions user dt⟩ else st x) :=
    congrArg Prod.snd h1
  have h2 : (exclude_cmd now st chat user raw).2 chat =
      some ⟨ev.name, ev.options, exclAdd ev.exclusions user dt⟩ := by
    rw [hs1]
    simp
  have h3 := exclude_cmd_ok now2 (exclude_cmd now st chat user raw).2 chat user
    raw2 ⟨ev.name, ev.options, exclAdd ev.exclusions user dt⟩ dt h2 hp2 hmem
  refine ⟨congrArg Prod.fst h1, h2,
    exclGet_exclAdd_self user dt ev.exclusions,
    congrArg Prod.fst h3, ?_⟩
  have hs3 := congrArg Prod.snd h3
  rw [hs3, exclAdd_idem]
  funext x
  by_cases hx : x = chat
  · subst hx
    simp [h2]
  · simp [hx]

/-- C8 witness: user 7 excludes the single offered option of `st0` twice. -/
theorem exclude_cmd_idempotent_witness :
    (exclude_cmd now0 st0 0 7 "31 января 20:00").1 = Except.ok pJan ∧
    (exclude_cmd now0 st0 0 7 "31 января 20:00").2 0 =
      some ⟨ev0.name, ev0.options, exclAdd ev0.exclusions 7 pJan⟩ ∧
    exclGet (exclAdd ev0.exclusions 7 pJan) 7 =
      insert pJan (exclGet ev0.exclusions 7) ∧
    (exclude_cmd now0 (exclude_cmd now0 st0 0 7 "31 января 20:00").2 0 7
      "31 января 20:00").1 = Except.ok pJan ∧
    (exclude_cmd now0 (exclude_cmd now0 st0 0 7 "31 января 20:00").2 0 7
      "31 января 20:00").2 = (exclude_cmd now0 st0 0 7 "31 января 20:00").2 :=
  exclude_cmd_idempotent now0 now0 st0 0 7 "31 января 20:00" "31 января 20:00"
    ev0 pJan rfl (by decide) (by decide) (by decide)

/-- C6: no failing operation mutates any state: a `NoValidDates` proposal
leaves the whole store (including any prior Event of that chat) untouched,
and `exclude_cmd` / `add_cmd` / `done_cmd` return the store unchanged on
every one of their error paths. -/
theorem error_paths_leave_state (now : TimePoint) (st : CoordState)
    (chat : ChatId) (user : UserId) (name raw : String) :
    (∀ e, (event_cmd now st chat name raw).1 = Except.error e →
      (event_cmd now st chat name raw).2 = st) ∧
    (∀ e, (exclude_cmd now st chat user raw).1 = Except.error e →
      (exclude_cmd now st chat user raw).2 = st) ∧
    (∀ e, (add_cmd now st chat raw).1 = Except.error e →
      (add_cmd now st chat raw).2 = st) ∧
    (∀ e, (done_cmd st chat).1 = Except.error e → (done_cmd st chat).2 = st) := by
  refine ⟨?_, ?_, ?_, ?_⟩
  · intro e h
    by_cases hne : (collectOptions now (parsePieces raw)).1 = ∅
    · simp [event_cmd, hne]
    · simp [event_cmd, hne] at h
  · intro e h
    cases hch : st chat with
    | none => simp [exclude_cmd, hch]
    | some ev =>
      cases hp : parse_date_time now raw with
      | none => simp [exclude_cmd, hch, hp]
      | some dt =>
        by_cases hmem : dt ∈ ev.options
        · rw [congrArg Prod.fst (exclude_cmd_ok now st chat user raw ev dt
            hch hp hmem)] at h
          exact absurd h (by simp)
        · simp [exclude_cmd, hch, hp, hmem]
  · intro e h
    cases hch : st chat with
    | none => simp [add_cmd, hch]
    | some ev =>
      cases hp : parse_date_time now raw with
      | none => simp [add_cmd, hch, hp]
      | some dt => simp [add_cmd, hch, hp] at h
  · intro e h
    cases hch : st chat with
    | none => simp [done_cmd, hch]
    | some ev => simp [done_cmd, hch] at h

/-- C6 witness: the theorem at a concrete failing configuration — all four
operations fail against the prior store `st0` (chat 5 has no Event, and the
proposal text for chat 5 parses to nothing) and each returns `st0` intact. -/
theorem error_paths_leave_state_witness :
    (∀ e, (event_cmd now0 st0 5 "Sync" "bogus").1 = Except.error e →
      (event_cmd now0 st0 5 "Sync" "bogus").2 = st0) ∧
    (∀ e, (exclude_cmd now0 st0 5 7 "bogus").1 = Except.error e →
      (exclude_cmd now0 st0 5 7 "bogus").2 = st0) ∧
    (∀ e, (add_cmd now0 st0 5 "bogus").1 = Except.error e →
      (add_cmd now0 st0 5 "bogus").2 = st0) ∧
    (∀ e, (done_cmd st0 5).1 = Except.error e → (done_cmd st0 5).2 = st0) :=
  error_paths_leave_state now0 st0 5 7 "Sync" "bogus"

/-- Preservation of `StateInv` by one command dispatch. -/
theorem stepCmd_inv (st : CoordState) (c : Cmd) (h : StateInv st) :
    StateInv (stepCmd st c) := by
  cases c with
  | propose now chat name ts =>
    simp only [stepCmd, event_cmd]
    by_cases hne : (collectOptions now (parsePieces ts)).1 = ∅
    · simpa [hne] using h
    · simp only [hne, if_neg, if_false]
      intro ch ev hev
      by_cases hc : ch = chat
      · subst hc
        dsimp only at hev
        rw [if_pos rfl] at hev
        injection hev with hev
        subst hev
        intro p hp
        simp at hp
      · simp only [if_neg hc] at hev
        exact h ch ev hev
  | exclude now chat user raw =>
    cases hch : st chat with
    | none => simpa [stepCmd, exclude_cmd, hch] using h
    | some ev =>
      cases hp : parse_date_time now raw with
      | none => simpa [stepCmd, exclude_cmd, hch, hp] using h
      | some dt =>
        by_cases hmem : dt ∈ ev.options
        · rw [show stepCmd st (Cmd.exclude now chat user raw) =
            (exclude_cmd now st chat user raw).2 from rfl,
            congrArg Prod.snd (exclude_cmd_ok now st chat user raw ev dt
              hch hp hmem)]
          intro ch ev2 hev2
          by_cases hc : ch = chat
          · subst hc
            dsimp only at hev2
            rw [if_pos rfl] at hev2
            injection hev2 with hev2
            subst hev2
            exact exclAdd_mem_preserved ev.options user dt hmem ev.exclusions
              (h _ ev hch)
          · simp only [if_neg hc] at hev2
            exact h ch ev2 hev2
        · simpa [stepCmd, exclude_cmd, hch, hp, hmem] using h
  | addOpt now chat raw =>
    cases hch : st chat with
    | none => simpa [stepCmd, add_cmd, hch] using h
    | some ev =>
      cases hp : parse_date_time now raw with
      | none => simpa [stepCmd, add_cmd, hch, hp] using h
      | some dt =>
        simp only [stepCmd, add_cmd, hch, hp]
        intro ch ev2 hev2
        by_cases hc : ch = chat
        · subst hc
          dsimp only at hev2
          rw [if_pos rfl] at hev2
          injection hev2 with hev2
          subst hev2
          intro p hp2
          obtain ⟨hsub, hne⟩ := h _ ev hch p hp2
          exact ⟨hsub.trans (Finset.subset_insert dt ev.options), hne⟩
        · simp only [if_neg hc] at hev2
          exact h ch ev2 hev2
  | finalize chat =>
    cases hch : st chat with
    | none => simpa [stepCmd, done_cmd, hch] using h
    | some ev =>
      simp only [stepCmd, done_cmd, hch]
      intro ch ev2 hev2
      by_cases hc : ch = chat
      · subst hc
        simp only [if_pos rfl] at hev2
        exact absurd hev2 (by simp)
      · simp only [if_neg hc] at hev2
        exact h ch ev2 hev2

/-- C7: in every store reachable from the empty store by any sequence of
propose / add / exclude / finalize commands, every point in any
participant's exclusion set of any existing Event is one of that Event's
options, and every recorded participant has a non-empty exclusion set. -/
theorem reachable_states_invariant (cmds : List Cmd) :
    StateInv (runCmds cmds) := by
  rw [runCmds]
  have base : StateInv initState := by
    intro ch ev h
    simp [initState] at h
  revert base
  generalize initState = st
  intro base
  induction cmds generalizing st with
  | nil => exact base
  | cons c rest ih => exact ih (stepCmd st c) (stepCmd_inv st c base)

/-- C7 witness: the invariant evaluated on the store left by one concrete
propose-then-exclude run. -/
theorem reachable_states_invariant_witness :
    StateInv (runCmds [Cmd.propose now0 0 "Sync" "31 января 20:00",
      Cmd.exclude now0 0 7 "31 января 20:00"]) :=
  reachable_states_invariant [Cmd.propose now0 0 "Sync" "31 января 20:00",
    Cmd.exclude now0 0 7 "31 января 20:00"]

/-! ### Calendar lemmas for the year-rollover reasoning -/

theorem daysBeforeYear_succ (y : Nat) (hy : 1 ≤ y) :
    daysBeforeYear (y + 1) = daysBeforeYear y + daysInYear y := by
  unfold daysBeforeYear leapsBefore daysInYear
  cases hL : isLeap y with
  | false =>
    have hm : ¬((y % 4 = 0 ∧ y % 100 ≠ 0) ∨ y % 400 = 0) := by
      simpa [isLeap, Bool.or_eq_true, Bool.and_eq_true, decide_eq_true_eq]
        using hL
    simp only [Bool.false_eq_true, if_false]
    omega
  | true =>
    have hm : (y % 4 = 0 ∧ y % 100 ≠ 0) ∨ y % 400 = 0 := by
      simpa [isLeap, Bool.or_eq_true, Bool.and_eq_true, decide_eq_true_eq]
        using hL
    simp only [if_true]
    omega

theorem daysBeforeMonth_le (y m : Nat) (h1 : 1 ≤ m) (h2 : m ≤ 12) :
    daysBeforeMonth y m + daysInMonth y m ≤ daysInYear y := by
  interval_cases m <;>
    cases hL : isLeap y <;>
      simp [daysBeforeMonth, daysInMonth, daysInYear, hL]

theorem toAbs_lt_next_year_start (p : TimePoint)
    (hv : validDate p.year p.month p.day p.hour p.minute = true) :
    toAbs p < daysBeforeYear (p.year + 1) * 1440 := by
  simp only [validDate, Bool.and_eq_true, decide_eq_true_eq, and_assoc] at hv
  obtain ⟨hy1, hy2, hm1, hm2, hd1, hd2, hh, hmi⟩ := hv
  have h1 := daysBeforeMonth_le p.year p.month hm1 hm2
  have h2 := daysBeforeYear_succ p.year hy1
  unfold toAbs
  omega

theorem next_year_start_le_toAbs (q : TimePoint) (y : Nat)
    (hqy : q.year = y + 1) :
    daysBeforeYear (y + 1) * 1440 ≤ toAbs q := by
  unfold toAbs
  rw [hqy]
  omega

/-- Any valid clock reading in year `y` is strictly before any point of
year `y + 1`, in particular not more than 10 minutes after it. -/
theorem toAbs_now_lt_next_year (now q : TimePoint)
    (hnow : validDate now.year now.month now.day now.hour now.minute = true)
    (hqy : q.year = now.year + 1) :
    toAbs now < toAbs q :=
  lt_of_lt_of_le (toAbs_lt_next_year_start now hnow)
    (next_year_start_le_toAbs q now.year hqy)

/-- C3: the parser returns NONE when the (normalised) input does not fit the
day/month-word/hour:minute shape, when the month word is not one of the
twelve recognised ones, when the field combination is not a valid calendar
date in the current year, or when the hour or minute is out of range. -/
theorem parse_none_conditions (now : TimePoint) (s : String)
    (h : matchPattern (pyNormalize s.data) = none ∨
      (∃ d w hr mi, matchPattern (pyNormalize s.data) = some (d, w, hr, mi) ∧
        MONTHS.lookup w = none) ∨
      (∃ d w hr mi m, matchPattern (pyNormalize s.data) = some (d, w, hr, mi) ∧
        MONTHS.lookup w = some m ∧
        validDate now.year m d hr mi = false) ∨
      (∃ d w hr mi, matchPattern (pyNormalize s.data) = some (d, w, hr, mi) ∧
        (24 ≤ hr ∨ 60 ≤ mi))) :
    parse_date_time now s = none := by
  rcases h with h | ⟨d, w, hr, mi, hm, hl⟩ | ⟨d, w, hr, mi, m, hm, hl, hv⟩ |
    ⟨d, w, hr, mi, hm, hrange⟩
  · simp [parse_date_time, h]
  · simp [parse_date_time, hm, hl]
  · simp [parse_date_time, hm, hl, hv]
  · cases hl : MONTHS.lookup w with
    | none => simp [parse_date_time, hm, hl]
    | some m =>
      have hv : validDate now.year m d hr mi = false := by
        apply Bool.eq_false_iff.mpr
        intro hvt
        simp only [validDate, Bool.and_eq_true, decide_eq_true_eq,
          and_assoc] at hvt
        rcases hrange with hh | hmi <;> omega
      simp [parse_date_time, hm, hl, hv]

/-- C3 witness: "31 февраля 10:00" has the right shape and a known month but
February 31 is not a valid date, so the parser returns NONE. -/
theorem parse_none_conditions_witness :
    parse_date_time now0 "31 февраля 10:00" = none :=
  parse_none_conditions now0 "31 февраля 10:00"
    (Or.inr (Or.inr (Or.inl ⟨31, "февраля", 10, 0, 2, by decide, by decide,
      by decide⟩)))

/-- C4: for a well-shaped input with a recognised month whose fields form a
valid calendar date in the current year, the parser rolls to year + 1
exactly when the current-year point lies more than 10 minutes in the past
(returning NONE when that year + 1 date is itself invalid, with no further
fallback), and otherwise returns the current-year point. -/
theorem parse_year_disambiguation (now : TimePoint) (s : String)
    (d : Nat) (w : String) (hr mi m : Nat)
    (hm : matchPattern (pyNormalize s.data) = some (d, w, hr, mi))
    (hl : MONTHS.lookup w = some m)
    (hv : validDate now.year m d hr mi = true) :
    (toAbs ⟨now.year, m, d, hr, mi⟩ + 10 < toAbs now →
      (validDate (now.year + 1) m d hr mi = true →
        parse_date_time now s = some ⟨now.year + 1, m, d, hr, mi⟩) ∧
      (validDate (now.year + 1) m d hr mi = false →
        parse_date_time now s = none)) ∧
    (¬ toAbs ⟨now.year, m, d, hr, mi⟩ + 10 < toAbs now →
      parse_date_time now s = some ⟨now.year, m, d, hr, mi⟩) := by
  constructor
  · intro hpast
    constructor
    · intro hv2
      simp [parse_date_time, hm, hl, hv, hpast, hv2]
    · intro hv2
      simp [parse_date_time, hm, hl, hv, hpast, hv2]
  · intro hfut
    simp [parse_date_time, hm, hl, hv, hfut]

/-- C4 witness: at `now0` (June 15, 2025), "31 января 20:00" builds the
valid current-year point January 31, 2025, which is long past, and the
year + 1 reconstruction is valid, so the parser returns the 2026 point. -/
theorem parse_year_disambiguation_witness :
    (toAbs ⟨now0.year, 1, 31, 20, 0⟩ + 10 < toAbs now0 →
      (validDate (now0.year + 1) 1 31 20 0 = true →
        parse_date_time now0 "31 января 20:00" =
          some ⟨now0.year + 1, 1, 31, 20, 0⟩) ∧
      (validDate (now0.year + 1) 1 31 20 0 = false →
        parse_date_time now0 "31 января 20:00" = none)) ∧
    (¬ toAbs ⟨now0.year, 1, 31, 20, 0⟩ + 10 < toAbs now0 →
      parse_date_time now0 "31 января 20:00" = some ⟨now0.year, 1, 31, 20, 0⟩) :=
  parse_year_disambiguation now0 "31 января 20:00" 31 "января" 20 0 1
    (by decide) (by decide) (by decide)

/-- C10: whenever the clock reading `now` is a genuine datetime, every point
the parser returns lies within the last 10 minutes or in the future — the
parser never produces a point more than 10 minutes in the past. -/
theorem parse_never_far_past (now : TimePoint) (s : String) (p : TimePoint)
    (hnow : validDate now.year now.month now.day now.hour now.minute = true)
    (hp : parse_date_time now s = some p) :
    ¬ (toAbs p + 10 < toAbs now) := by
  unfold parse_date_time at hp
  rcases hm : matchPattern (pyNormalize s.data) with _ | ⟨d, w, hr, mi⟩
  · rw [hm] at hp
    simp at hp
  · rw [hm] at hp
    dsimp only at hp
    rcases hl : MONTHS.lookup w with _ | m
    · rw [hl] at hp
      simp at hp
    · rw [hl] at hp
      dsimp only at hp
      by_cases h1 : validDate now.year m d hr mi = true
      · rw [if_pos h1] at hp
        by_cases h2 : toAbs ⟨now.year, m, d, hr, mi⟩ + 10 < toAbs now
        · rw [if_pos h2] at hp
          by_cases h3 : validDate (now.year + 1) m d hr mi = true
          · rw [if_pos h3] at hp
            injection hp with hp
            subst hp
            intro habs
            have := toAbs_now_lt_next_year now ⟨now.year + 1, m, d, hr, mi⟩
              hnow rfl
            omega
          · rw [if_neg h3] at hp
            simp at hp
        · rw [if_neg h2] at hp
          injection hp with hp
          subst hp
          exact h2
      · rw [if_neg h1] at hp
        simp at hp

/-- C10 witness: the rolled-over point for "1 января 10:00" at `now0` is in
the future of `now0`, hence not more than 10 minutes in its past. -/
theorem parse_never_far_past_witness :
    ¬ (toAbs (⟨2026, 1, 1, 10, 0⟩ : TimePoint) + 10 < toAbs now0) :=
  parse_never_far_past now0 "1 января 10:00" ⟨2026, 1, 1, 10, 0⟩ (by decide)
    (by decide)

/-! ### Round-trip support: character classes, spans and digit strings -/

theorem digitChar_not_space (c : Char) (h : isDigitChar c = true) :
    isSpaceChar c = false := by
  simp only [isDigitChar, Bool.and_eq_true, decide_eq_true_eq] at h
  simp only [isSpaceChar, Bool.or_eq_false_iff, decide_eq_false_iff_not]
  omega

theorem cyrChar_not_space (c : Char) (h : isCyrChar c = true) :
    isSpaceChar c = false := by
  simp only [isCyrChar, Bool.or_eq_true, Bool.and_eq_true,
    decide_eq_true_eq] at h
  simp only [isSpaceChar, Bool.or_eq_false_iff, decide_eq_false_iff_not]
  omega

theorem pyLowerChar_fixed (c : Char)
    (h : c.toNat < 65 ∨ (90 < c.toNat ∧ c.toNat < 0x401) ∨
      (0x401 < c.toNat ∧ c.toNat < 0x410) ∨ 0x42F < c.toNat) :
    pyLowerChar c = c := by
  unfold pyLowerChar
  split_ifs with h1 h2 h3
  · exfalso; omega
  · exfalso; omega
  · exfalso; omega
  · rfl

theorem pyLowerChar_fixed_digit (c : Char) (h : isDigitChar c = true) :
    pyLowerChar c = c := by
  apply pyLowerChar_fixed
  simp only [isDigitChar, Bool.and_eq_true, decide_eq_true_eq] at h
  omega

theorem pyLowerChar_fixed_cyr (c : Char) (h : isCyrChar c = true) :
    pyLowerChar c = c := by
  apply pyLowerChar_fixed
  simp only [isCyrChar, Bool.or_eq_true, Bool.and_eq_true,
    decide_eq_true_eq] at h
  omega

theorem map_pyLowerChar_id (cs : List Char) (h : ∀ c ∈ cs, pyLowerChar c = c) :
    cs.map pyLowerChar = cs := by
  induction cs with
  | nil => rfl
  | cons c t ih =>
    simp only [List.map_cons, h c (List.mem_cons_self c t),
      ih (fun x hx => h x (List.mem_cons_of_mem c hx))]

theorem takeWhile_append_not (q : Char → Bool) (xs ys : List Char)
    (hxs : ∀ c ∈ xs, q c = true) (hy : ∀ c, ys.head? = some c → q c = false) :
    (xs ++ ys).takeWhile q = xs := by
  induction xs with
  | nil =>
    cases ys with
    | nil => rfl
    | cons y t => simp [List.takeWhile_cons, hy y rfl]
  | cons x t ih =>
    simp [List.takeWhile_cons, hxs x (List.mem_cons_self x t),
      ih (fun c hc => hxs c (List.mem_cons_of_mem x hc))]

theorem dropWhile_append_not (q : Char → Bool) (xs ys : List Char)
    (hxs : ∀ c ∈ xs, q c = true) (hy : ∀ c, ys.head? = some c → q c = false) :
    (xs ++ ys).dropWhile q = ys := by
  induction xs with
  | nil =>
    cases ys with
    | nil => rfl
    | cons y t => simp [List.dropWhile_cons, hy y rfl]
  | cons x t ih =>
    simp [List.dropWhile_cons, hxs x (List.mem_cons_self x t),
      ih (fun c hc => hxs c (List.mem_cons_of_mem x hc))]

theorem span_append_not (q : Char → Bool) (xs ys : List Char)
    (hxs : ∀ c ∈ xs, q c = true) (hy : ∀ c, ys.head? = some c → q c = false) :
    (xs ++ ys).span q = (xs, ys) := by
  rw [List.span_eq_take_drop, takeWhile_append_not q xs ys hxs hy,
    dropWhile_append_not q xs ys hxs hy]

theorem dropWhile_eq_self_of_head (q : Char → Bool) (cs : List Char)
    (h : ∀ c, cs.head? = some c → q c = false) : cs.dropWhile q = cs := by
  cases cs with
  | nil => rfl
  | cons c t => simp [List.dropWhile_cons, h c rfl]

theorem pyStrip_eq_self (cs : List Char)
    (h1 : ∀ c, cs.head? = some c → isSpaceChar c = false)
    (h2 : ∀ c, cs.getLast? = some c → isSpaceChar c = false) :
    pyStrip cs = cs := by
  unfold pyStrip
  rw [dropWhile_eq_self_of_head isSpaceChar cs h1,
    dropWhile_eq_self_of_head isSpaceChar cs.reverse
      (fun c hc => h2 c (by rwa [List.head?_reverse] at hc)),
    List.reverse_reverse]

theorem repr_digit_facts : ∀ n, n < 32 →
    (Nat.repr n).data.all isDigitChar = true ∧ (Nat.repr n).data ≠ [] ∧
      (Nat.repr n).data.length ≤ 2 ∧ natOfDigits (Nat.repr n).data = n := by
  decide

theorem pad2_digit_facts : ∀ n, n < 60 →
    (pad2 n).data.all isDigitChar = true ∧ (pad2 n).data.length = 2 ∧
      natOfDigits (pad2 n).data = n := by
  decide

theorem month_name_facts : ∀ m, m < 13 → 1 ≤ m →
    ((MONTHS.map Prod.fst).getD (m - 1) "").data ≠ [] ∧
      ((MONTHS.map Prod.fst).getD (m - 1) "").data.all isCyrChar = true ∧
      MONTHS.lookup ((MONTHS.map Prod.fst).getD (m - 1) "") = some m := by
  decide

theorem month_lookup_range (w : String) (m : Nat)
    (h : MONTHS.lookup w = some m) : 1 ≤ m ∧ m ≤ 12 := by
  simp only [MONTHS, List.lookup] at h
  repeat' split at h
  all_goals simp_all
  all_goals omega

theorem daysInMonth_le_31 (y m : Nat) : daysInMonth y m ≤ 31 := by
  unfold daysInMonth
  split_ifs <;> omega

theorem span_cons_not (q : Char → Bool) (x : Char) (ys : List Char)
    (hx : q x = true) (hy : ∀ c, ys.head? = some c → q c = false) :
    (x :: ys).span q = ([x], ys) := by
  have := span_append_not q [x] ys (by simpa using hx) hy
  simpa using this

theorem matchPattern_format (p : TimePoint) (hm1 : 1 ≤ p.month)
    (hm2 : p.month ≤ 12) (hd1 : 1 ≤ p.day) (hd2 : p.day ≤ 31)
    (hh : p.hour < 24) (hmi : p.minute < 60) :
    pyNormalize (format_datetime p).data = (format_datetime p).data ∧
    matchPattern (format_datetime p).data =
      some (p.day, (MONTHS.map Prod.fst).getD (p.month - 1) "", p.hour,
        p.minute) := by
  obtain ⟨hdall, hdne, hdlen, hdval⟩ := repr_digit_facts p.day (by omega)
  obtain ⟨hhall, hhlen, hhval⟩ := pad2_digit_facts p.hour (by omega)
  obtain ⟨hmall, hmlen, hmval⟩ := pad2_digit_facts p.minute (by omega)
  obtain ⟨hwne, hwall, hwlook⟩ := month_name_facts p.month (by omega) hm1
  obtain ⟨m1, m2, hmm⟩ := List.length_eq_two.mp hmlen
  have hdmem := List.all_eq_true.mp hdall
  have hhmem := List.all_eq_true.mp hhall
  have hwmem := List.all_eq_true.mp hwall
  have hm1d : isDigitChar m1 = true :=
    List.all_eq_true.mp hmall m1 (by rw [hmm]; simp)
  have hm2d : isDigitChar m2 = true :=
    List.all_eq_true.mp hmall m2 (by rw [hmm]; simp)
  have hhne : (pad2 p.hour).data ≠ [] := by
    intro hx
    rw [hx] at hhlen
    simp at hhlen
  have hfmt : (format_datetime p).data =
      (Nat.repr p.day).data ++ ' ' ::
        (((MONTHS.map Prod.fst).getD (p.month - 1) "").data ++ ' ' ::
          ((pad2 p.hour).data ++ ':' :: [m1, m2])) := by
    rw [← hmm]
    simp [format_datetime, String.data_append, List.append_assoc]
  have hdayhead : ∀ c, ((Nat.repr p.day).data ++ ' ' ::
      (((MONTHS.map Prod.fst).getD (p.month - 1) "").data ++ ' ' ::
        ((pad2 p.hour).data ++ ':' :: [m1, m2]))).head? = some c →
      isSpaceChar c = false := by
    intro c hc
    rw [List.head?_append_of_ne_nil _ hdne] at hc
    exact digitChar_not_space c
      (hdmem c (List.mem_of_mem_head? (Option.mem_def.mpr hc)))
  have s1 : ((Nat.repr p.day).data ++ ' ' ::
      (((MONTHS.map Prod.fst).getD (p.month - 1) "").data ++ ' ' ::
        ((pad2 p.hour).data ++ ':' :: [m1, m2]))).span isDigitChar =
      ((Nat.repr p.day).data, ' ' ::
        (((MONTHS.map Prod.fst).getD (p.month - 1) "").data ++ ' ' ::
          ((pad2 p.hour).data ++ ':' :: [m1, m2]))) :=
    span_append_not _ _ _ hdmem
      (by intro c hc; injection hc with hc; subst hc; decide)
  have s2 : (' ' :: (((MONTHS.map Prod.fst).getD (p.month - 1) "").data ++
      ' ' :: ((pad2 p.hour).data ++ ':' :: [m1, m2]))).span isSpaceChar =
      ([' '], ((MONTHS.map Prod.fst).getD (p.month - 1) "").data ++
        ' ' :: ((pad2 p.hour).data ++ ':' :: [m1, m2])) :=
    span_cons_not _ _ _ (by decide)
      (by
        intro c hc
        rw [List.head?_append_of_ne_nil _ hwne] at hc
        exact cyrChar_not_space c
          (hwmem c (List.mem_of_mem_head? (Option.mem_def.mpr hc))))
  have s3 : (((MONTHS.map Prod.fst).getD (p.month - 1) "").data ++
      ' ' :: ((pad2 p.hour).data ++ ':' :: [m1, m2])).span isCyrChar =
      (((MONTHS.map Prod.fst).getD (p.month - 1) "").data,
        ' ' :: ((pad2 p.hour).data ++ ':' :: [m1, m2])) :=
    span_append_not _ _ _ hwmem
      (by intro c hc; injection hc with hc; subst hc; decide)
  have s4 : (' ' :: ((pad2 p.hour).data ++ ':' :: [m1, m2])).span isSpaceChar =
      ([' '], (pad2 p.hour).data ++ ':' :: [m1, m2]) :=
    span_cons_not _ _ _ (by decide)
      (by
        intro c hc
        rw [List.head?_append_of_ne_nil _ hhne] at hc
        exact digitChar_not_space c
          (hhmem c (List.mem_of_mem_head? (Option.mem_def.mpr hc))))
  have s5 : ((pad2 p.hour).data ++ ':' :: [m1, m2]).span isDigitChar =
      ((pad2 p.hour).data, ':' :: [m1, m2]) :=
    span_append_not _ _ _ hhmem
      (by intro c hc; injection hc with hc; subst hc; decide)
  constructor
  · rw [hfmt]
    unfold pyNormalize
    have hstrip : pyStrip ((Nat.repr p.day).data ++ ' ' ::
        (((MONTHS.map Prod.fst).getD (p.month - 1) "").data ++ ' ' ::
          ((pad2 p.hour).data ++ ':' :: [m1, m2]))) =
        ((Nat.repr p.day).data ++ ' ' ::
        (((MONTHS.map Prod.fst).getD (p.month - 1) "").data ++ ' ' ::
          ((pad2 p.hour).data ++ ':' :: [m1, m2]))) := by
      apply pyStrip_eq_self
      · exact hdayhead
      · intro c hc
        have hconcat : (Nat.repr p.day).data ++ ' ' ::
            (((MONTHS.map Prod.fst).getD (p.month - 1) "").data ++ ' ' ::
              ((pad2 p.hour).data ++ ':' :: [m1, m2])) =
            ((Nat.repr p.day).data ++ ' ' ::
              (((MONTHS.map Prod.fst).getD (p.month - 1) "").data ++ ' ' ::
                ((pad2 p.hour).data ++ ':' :: [m1]))) ++ [m2] := by
          simp
        rw [hconcat, List.getLast?_concat] at hc
        injection hc with hc
        subst hc
        exact digitChar_not_space m2 hm2d
    rw [hstrip]
    apply map_pyLowerChar_id
    intro c hc
    simp only [List.mem_append, List.mem_cons] at hc
    rcases hc with hc | hc | hc | hc | hc | hc
    · exact pyLowerChar_fixed_digit c (hdmem c hc)
    · subst hc; decide
    · exact pyLowerChar_fixed_cyr c (hwmem c hc)
    · subst hc; decide
    · exact pyLowerChar_fixed_digit c (hhmem c hc)
    · rcases hc with hc | hc | hc
      · subst hc; decide
      · subst hc; exact pyLowerChar_fixed_digit _ hm1d
      · rcases hc with hc | hc
        · subst hc; exact pyLowerChar_fixed_digit _ hm2d
        · simp at hc
  · rw [hfmt]
    simp only [matchPattern, s1, s2, s3, s4, s5]
    rw [if_neg (by
      intro hcontra
      rcases hcontra with hc | hc
      · exact hdne (List.length_eq_zero.mp hc)
      · omega)]
    rw [if_neg (by simp)]
    rw [if_neg (by
      intro hcontra
      exact hwne (List.length_eq_zero.mp hcontra))]
    rw [if_neg (by simp)]
    rw [if_neg (by
      intro hcontra
      rcases hcontra with hc | hc <;> omega)]
    simp only [hm1d, hm2d, Bool.and_self, if_true]
    rw [hdval, hhval, ← hmm, hmval]

/-- Characterisation of every point the parser can return: its fields come
from the scanned groups, the current-year reconstruction is valid, and it
is either that current-year point (when at most 10 minutes past) or the
valid year + 1 reconstruction (when more than 10 minutes past). -/
theorem parse_some_cases (now : TimePoint) (s : String) (p : TimePoint)
    (hp : parse_date_time now s = some p) :
    ∃ m d hr mi, 1 ≤ m ∧ m ≤ 12 ∧ 1 ≤ d ∧ d ≤ 31 ∧ hr < 24 ∧ mi < 60 ∧
      validDate now.year m d hr mi = true ∧
      ((¬ toAbs ⟨now.year, m, d, hr, mi⟩ + 10 < toAbs now ∧
          p = ⟨now.year, m, d, hr, mi⟩) ∨
        (toAbs ⟨now.year, m, d, hr, mi⟩ + 10 < toAbs now ∧
          validDate (now.year + 1) m d hr mi = true ∧
          p = ⟨now.year + 1, m, d, hr, mi⟩)) := by
  unfold parse_date_time at hp
  rcases hm : matchPattern (pyNormalize s.data) with _ | ⟨d, w, hr, mi⟩
  · rw [hm] at hp
    simp at hp
  · rw [hm] at hp
    dsimp only at hp
    rcases hl : MONTHS.lookup w with _ | m
    · rw [hl] at hp
      simp at hp
    · rw [hl] at hp
      dsimp only at hp
      obtain ⟨hmr1, hmr2⟩ := month_lookup_range w m hl
      by_cases h1 : validDate now.year m d hr mi = true
      · rw [if_pos h1] at hp
        have hv := h1
        simp only [validDate, Bool.and_eq_true, decide_eq_true_eq,
          and_assoc] at hv
        obtain ⟨hy1, hy2, hv3, hv4, hd1, hd2, hhr, hmi2⟩ := hv
        have hd31 : d ≤ 31 := le_trans hd2 (daysInMonth_le_31 now.year m)
        by_cases h2 : toAbs ⟨now.year, m, d, hr, mi⟩ + 10 < toAbs now
        · rw [if_pos h2] at hp
          by_cases h3 : validDate (now.year + 1) m d hr mi = true
          · rw [if_pos h3] at hp
            injection hp with hp
            exact ⟨m, d, hr, mi, hmr1, hmr2, hd1, hd31, hhr, hmi2, h1,
              Or.inr ⟨h2, h3, hp.symm⟩⟩
          · rw [if_neg h3] at hp
            simp at hp
        · rw [if_neg h2] at hp
          injection hp with hp
          exact ⟨m, d, hr, mi, hmr1, hmr2, hd1, hd31, hhr, hmi2, h1,
            Or.inl ⟨h2, hp.symm⟩⟩
      · rw [if_neg h1] at hp
        simp at hp

/-- C5: format is a left inverse of parse — any point the parser can
produce, when formatted and parsed again at the same current time, yields
the same point. -/
theorem parse_format_roundtrip (now : TimePoint) (s : String) (p : TimePoint)
    (hp : parse_date_time now s = some p) :
    parse_date_time now (format_datetime p) = some p := by
  obtain ⟨m, d, hr, mi, hmr1, hmr2, hd1, hd31, hhr, hmi2, h1, hcase⟩ :=
    parse_some_cases now s p hp
  rcases hcase with ⟨h2, rfl⟩ | ⟨h2, h3, rfl⟩
  · obtain ⟨hnorm, hmatch⟩ :=
      matchPattern_format ⟨now.year, m, d, hr, mi⟩ hmr1 hmr2 hd1 hd31 hhr hmi2
    obtain ⟨hne2, hall2, hwlook⟩ := month_name_facts m (by omega) hmr1
    unfold parse_date_time
    rw [hnorm, hmatch]
    dsimp only
    rw [hwlook]
    dsimp only
    rw [if_pos h1, if_neg h2]
  · obtain ⟨hnorm, hmatch⟩ :=
      matchPattern_format ⟨now.year + 1, m, d, hr, mi⟩ hmr1 hmr2 hd1 hd31
        hhr hmi2
    obtain ⟨hne2, hall2, hwlook⟩ := month_name_facts m (by omega) hmr1
    unfold parse_date_time
    rw [hnorm, hmatch]
    dsimp only
    rw [hwlook]
    dsimp only
    rw [if_pos h1, if_pos h2, if_pos h3]

/-- C5 witness: the point parsed from "31 января 20:00" at `now0` formats
back to text that parses to the same point at `now0`. -/
theorem parse_format_roundtrip_witness :
    parse_date_time now0 (format_datetime ⟨2026, 1, 31, 20, 0⟩) =
      some ⟨2026, 1, 31, 20, 0⟩ :=
  parse_format_roundtrip now0 "31 января 20:00" ⟨2026, 1, 31, 20, 0⟩
    (by decide)
